import Mathlib

/-
Verification of the profile-extraction and along-profile statistics engine
of the pypism / glacier-flow-tools repository.

The Python sources are shallowly embedded: 2-D points become pairs of real
numbers, NaN-able numeric series become lists of `Option ℝ` (`none` = NaN),
labeled 2-D arrays become a record of two dimension names plus a row list,
and xarray datasets become association lists from variable names to series.
Python `assert` failures and KeyError lookups become `Except` errors.
-/

namespace PyPism

noncomputable section

/-- A planar point (or 2-vector), as in the numpy 2-element arrays used by
the geometry helpers of profiles.py. -/
abbrev Point : Type := ℝ × ℝ

/-- Componentwise subtraction of 2-vectors (numpy array subtraction). -/
def psub (p q : Point) : Point := (p.1 - q.1, p.2 - q.2)

/-- Euclidean norm of a 2-vector (np.linalg.norm). -/
def vnorm (p : Point) : ℝ := Real.sqrt (p.1 ^ 2 + p.2 ^ 2)

/-- Dot product of two 2-vectors (np.dot). -/
def dotP (a b : Point) : ℝ := a.1 * b.1 + a.2 * b.2

/-- Embedding of profiles.py normal(point0, point1): a = point0 - point1,
n = [-a[1], a[0]] normalized, flipped when np.dot(a, n) < 0. -/
def normal (point0 point1 : Point) : Point :=
  let a : Point := psub point0 point1
  let n0 : Point := (-a.2, a.1)
  let n : Point := (n0.1 / vnorm n0, n0.2 / vnorm n0)
  if dotP a n < 0 then (-n.1, -n.2) else n

/-- Embedding of profiles.py tangential(point0, point1): a = point1 - point0,
returned unchanged when its norm is zero, else divided by its norm. -/
def tangential (point0 point1 : Point) : Point :=
  let a : Point := psub point1 point0
  if vnorm a = 0 then a else (a.1 / vnorm a, a.2 / vnorm a)

end

/- General helper lemmas about the geometry embedding. -/

theorem sq_vnorm (p : Point) : vnorm p ^ 2 = p.1 ^ 2 + p.2 ^ 2 := by
  unfold vnorm
  exact Real.sq_sqrt (by positivity)

theorem vnorm_eq_zero_iff (p : Point) : vnorm p = 0 ↔ p.1 = 0 ∧ p.2 = 0 := by
  unfold vnorm
  rw [Real.sqrt_eq_zero' ]
  constructor
  · intro h
    constructor
    · nlinarith [sq_nonneg p.1, sq_nonneg p.2]
    · nlinarith [sq_nonneg p.1, sq_nonneg p.2]
  · rintro ⟨h1, h2⟩
    rw [h1, h2]
    norm_num

theorem vnorm_pos_of_ne (p : Point) (h : ¬(p.1 = 0 ∧ p.2 = 0)) : 0 < vnorm p := by
  rcases lt_or_eq_of_le (Real.sqrt_nonneg (p.1 ^ 2 + p.2 ^ 2)) with hlt | heq
  · exact hlt
  · exact absurd ((vnorm_eq_zero_iff p).mp heq.symm) h

theorem psub_ne_zero (p0 p1 : Point) (h : p0 ≠ p1) :
    ¬((psub p0 p1).1 = 0 ∧ (psub p0 p1).2 = 0) := by
  rintro ⟨h1, h2⟩
  apply h
  apply Prod.ext
  · have : p0.1 - p1.1 = 0 := h1
    linarith
  · have : p0.2 - p1.2 = 0 := h2
    linarith

/-- The branch condition of normal is always false: the dot product of a with
the normalized rotated vector is exactly zero in real arithmetic. -/
theorem normal_unflipped (p0 p1 : Point) :
    normal p0 p1 =
      (-(psub p0 p1).2 / vnorm (-(psub p0 p1).2, (psub p0 p1).1),
        (psub p0 p1).1 / vnorm (-(psub p0 p1).2, (psub p0 p1).1)) := by
  unfold normal
  simp only []
  rw [if_neg]
  rw [not_lt]
  have h0 : dotP (psub p0 p1)
      ((-(psub p0 p1).2) / vnorm (-(psub p0 p1).2, (psub p0 p1).1),
        (psub p0 p1).1 / vnorm (-(psub p0 p1).2, (psub p0 p1).1)) = 0 := by
    unfold dotP
    ring
  rw [h0]

/-- C9: In normal(p0, p1) the sign-flip branch is unreachable: the dot product
of a = p0 - p1 with the rotated vector n = (-a[1], a[0]) is exactly zero, so
the condition dot(a, n) < 0 never holds and the function always returns
(-a[1], a[0]) divided by its norm, without flipping. -/
theorem normal_flip_unreachable (p0 p1 : Point) :
    dotP (psub p0 p1) (-(psub p0 p1).2, (psub p0 p1).1) = 0 ∧
    normal p0 p1 =
      (-(psub p0 p1).2 / vnorm (-(psub p0 p1).2, (psub p0 p1).1),
        (psub p0 p1).1 / vnorm (-(psub p0 p1).2, (psub p0 p1).1)) := by
  constructor
  · unfold dotP
    ring
  · exact normal_unflipped p0 p1

/-- C5: for any two distinct points, normal(p0, p1) has Euclidean norm 1 and
is perpendicular to p1 - p0. -/
theorem normal_unit_perp (p0 p1 : Point) (h : p0 ≠ p1) :
    vnorm (normal p0 p1) = 1 ∧ dotP (normal p0 p1) (psub p1 p0) = 0 := by
  have hne := psub_ne_zero p0 p1 h
  set a1 : ℝ := (psub p0 p1).1 with ha1
  set a2 : ℝ := (psub p0 p1).2 with ha2
  have hne' : ¬(((-a2 : ℝ), a1).1 = 0 ∧ ((-a2 : ℝ), a1).2 = 0) := by
    rintro ⟨h1, h2⟩
    exact hne ⟨h2, by simpa using h1⟩
  have hm : 0 < vnorm ((-a2 : ℝ), a1) := vnorm_pos_of_ne _ hne'
  set m : ℝ := vnorm ((-a2 : ℝ), a1) with hmdef
  have hm2 : m ^ 2 = a2 ^ 2 + a1 ^ 2 := by
    have := sq_vnorm ((-a2 : ℝ), a1)
    simpa [neg_pow] using this
  have hrw := normal_unflipped p0 p1
  rw [← ha1, ← ha2, ← hmdef] at hrw
  constructor
  · rw [hrw]
    unfold vnorm
    have hq : (-a2 / m) ^ 2 + (a1 / m) ^ 2 = 1 := by
      field_simp
      linarith [hm2]
    rw [hq, Real.sqrt_one]
  · rw [hrw]
    unfold dotP psub
    have e1 : p1.1 - p0.1 = -a1 := by
      rw [ha1]
      unfold psub
      ring
    have e2 : p1.2 - p0.2 = -a2 := by
      rw [ha2]
      unfold psub
      ring
    simp only [e1, e2]
    ring

/-- Concrete instance of C5 at p0 = (0,0), p1 = (1,0). -/
theorem normal_unit_perp_witness :
    ((0:ℝ), (0:ℝ)) ≠ ((1:ℝ), (0:ℝ)) ∧
    vnorm (normal ((0:ℝ), (0:ℝ)) ((1:ℝ), (0:ℝ))) = 1 ∧
    dotP (normal ((0:ℝ), (0:ℝ)) ((1:ℝ), (0:ℝ))) (psub ((1:ℝ), (0:ℝ)) ((0:ℝ), (0:ℝ))) = 0 := by
  refine ⟨by norm_num [Prod.ext_iff], ?_, ?_⟩
  · exact (normal_unit_perp ((0:ℝ), (0:ℝ)) ((1:ℝ), (0:ℝ)) (by norm_num [Prod.ext_iff])).1
  · exact (normal_unit_perp ((0:ℝ), (0:ℝ)) ((1:ℝ), (0:ℝ)) (by norm_num [Prod.ext_iff])).2

/-- C6: tangential(p0, p1) returns (p1 - p0) normalized to unit Euclidean
length for distinct points, and returns the exact zero vector when p0 = p1. -/
theorem tangential_unit_or_zero (p0 p1 : Point) :
    (p0 ≠ p1 →
      tangential p0 p1 =
        ((psub p1 p0).1 / vnorm (psub p1 p0), (psub p1 p0).2 / vnorm (psub p1 p0)) ∧
      vnorm (tangential p0 p1) = 1) ∧
    (p0 = p1 → tangential p0 p1 = ((0:ℝ), (0:ℝ))) := by
  constructor
  · intro h
    have hne := psub_ne_zero p1 p0 (Ne.symm h)
    set b1 : ℝ := (psub p1 p0).1 with hb1
    set b2 : ℝ := (psub p1 p0).2 with hb2
    have hm : 0 < vnorm (psub p1 p0) := vnorm_pos_of_ne _ hne
    set m : ℝ := vnorm (psub p1 p0) with hmdef
    have hm2 : m ^ 2 = b1 ^ 2 + b2 ^ 2 := sq_vnorm (psub p1 p0)
    have hrw : tangential p0 p1 = (b1 / m, b2 / m) := by
      unfold tangential
      rw [if_neg]
      exact hm.ne'
    refine ⟨hrw, ?_⟩
    rw [hrw]
    unfold vnorm
    have hq : (b1 / m) ^ 2 + (b2 / m) ^ 2 = 1 := by
      field_simp
      linarith [hm2]
    rw [hq, Real.sqrt_one]
  · intro h
    have hz : psub p1 p0 = ((0:ℝ), (0:ℝ)) := by
      rw [h]
      unfold psub
      norm_num
    unfold tangential
    rw [hz]
    rw [if_pos]
    rw [vnorm_eq_zero_iff]
    norm_num

/-- Concrete instances of C6 at distinct points (0,0), (3,4) and at the
coincident pair (1,1), (1,1). -/
theorem tangential_unit_or_zero_witness :
    vnorm (tangential ((0:ℝ), (0:ℝ)) ((3:ℝ), (4:ℝ))) = 1 ∧
    tangential ((1:ℝ), (1:ℝ)) ((1:ℝ), (1:ℝ)) = ((0:ℝ), (0:ℝ)) := by
  constructor
  · exact ((tangential_unit_or_zero ((0:ℝ), (0:ℝ)) ((3:ℝ), (4:ℝ))).1
      (by norm_num [Prod.ext_iff])).2
  · exact (tangential_unit_or_zero ((1:ℝ), (1:ℝ)) ((1:ℝ), (1:ℝ))).2 rfl

noncomputable section

/-- Imperative vector construction shared by compute_normals and
compute_tangentials in profiles.py:
ns = np.zeros_like(p); ns[0] = f(p[0], p[1]);
for j in range(1, len(p) - 1): ns[j] = f(p[j-1], p[j+1]);
ns[-1] = f(p[-2], p[-1]). Only invoked when len(p) is at least 2. -/
def buildVecs (f : Point → Point → Point) (p : List Point) : List Point :=
  let z : Point := ((0:ℝ), (0:ℝ))
  let ns0 := List.replicate p.length z
  let ns1 := ns0.set 0 (f (p.getD 0 z) (p.getD 1 z))
  let ns2 := (List.range (p.length - 2)).foldl
    (fun ns k => ns.set (k + 1) (f (p.getD k z) (p.getD (k + 2) z))) ns1
  ns2.set (p.length - 1) (f (p.getD (p.length - 2) z) (p.getD (p.length - 1) z))

/-- Embedding of profiles.py compute_normals(px, py): stack the coordinates
into points, return ([0], [0]) when fewer than two points, else the x and y
columns of the normal vectors. -/
def compute_normals (px py : List ℝ) : List ℝ × List ℝ :=
  let p := px.zip py
  if p.length < 2 then ([0], [0])
  else ((buildVecs normal p).map Prod.fst, (buildVecs normal p).map Prod.snd)

/-- Embedding of profiles.py compute_tangentials(px, py), identical in
structure to compute_normals with tangential in place of normal. -/
def compute_tangentials (px py : List ℝ) : List ℝ × List ℝ :=
  let p := px.zip py
  if p.length < 2 then ([0], [0])
  else ((buildVecs tangential p).map Prod.fst, (buildVecs tangential p).map Prod.snd)

/-- Claim-side description of the vector layout: point 0 uses the pair (0,1),
interior point i uses the centered pair (i-1, i+1), point N-1 uses the pair
(N-2, N-1). -/
def centeredPairVecs (f : Point → Point → Point) (px py : List ℝ) : List Point :=
  List.ofFn fun i : Fin px.length =>
    if i.val = 0 then
      f (px.getD 0 0, py.getD 0 0) (px.getD 1 0, py.getD 1 0)
    else if i.val = px.length - 1 then
      f (px.getD (px.length - 2) 0, py.getD (px.length - 2) 0)
        (px.getD (px.length - 1) 0, py.getD (px.length - 1) 0)
    else
      f (px.getD (i.val - 1) 0, py.getD (i.val - 1) 0)
        (px.getD (i.val + 1) 0, py.getD (i.val + 1) 0)

end

theorem foldl_set_length {α : Type} (w : ℕ → α) (l : List ℕ) (ns : List α) :
    (l.foldl (fun ns k => ns.set (k + 1) (w k)) ns).length = ns.length := by
  induction l generalizing ns with
  | nil => rfl
  | cons a l ih => simp [List.foldl_cons, ih]

theorem foldl_set_getElem? {α : Type} (w : ℕ → α) (m : ℕ) (ns : List α) (j : ℕ) :
    ((List.range m).foldl (fun ns k => ns.set (k + 1) (w k)) ns)[j]? =
      if 1 ≤ j ∧ j ≤ m ∧ j < ns.length then some (w (j - 1)) else ns[j]? := by
  induction m with
  | zero =>
    rw [if_neg (by omega)]
    rfl
  | succ m ih =>
    rw [List.range_succ, List.foldl_append, List.foldl_cons, List.foldl_nil]
    rw [List.getElem?_set]
    by_cases hj : m + 1 = j
    · subst hj
      rw [if_pos rfl, foldl_set_length]
      by_cases hlt : m + 1 < ns.length
      · rw [if_pos hlt, if_pos ⟨by omega, by omega, hlt⟩]
        simp
      · rw [if_neg hlt, if_neg (by omega)]
        rw [List.getElem?_eq_none (by omega)]
    · rw [if_neg hj, ih]
      by_cases hcond : 1 ≤ j ∧ j ≤ m ∧ j < ns.length
      · rw [if_pos hcond, if_pos ⟨hcond.1, by omega, hcond.2.2⟩]
      · rw [if_neg hcond, if_neg (by omega)]

theorem buildVecs_length (f : Point → Point → Point) (p : List Point) :
    (buildVecs f p).length = p.length := by
  unfold buildVecs
  rw [List.length_set, foldl_set_length, List.length_set, List.length_replicate]

theorem buildVecs_getElem? (f : Point → Point → Point) (p : List Point)
    (h2 : 2 ≤ p.length) (i : ℕ) (hi : i < p.length) :
    (buildVecs f p)[i]? = some (
      if i = p.length - 1 then
        f (p.getD (p.length - 2) ((0:ℝ), (0:ℝ))) (p.getD (p.length - 1) ((0:ℝ), (0:ℝ)))
      else if i = 0 then
        f (p.getD 0 ((0:ℝ), (0:ℝ))) (p.getD 1 ((0:ℝ), (0:ℝ)))
      else
        f (p.getD (i - 1) ((0:ℝ), (0:ℝ))) (p.getD (i + 1) ((0:ℝ), (0:ℝ)))) := by
  unfold buildVecs
  rw [List.getElem?_set]
  by_cases hlast : i = p.length - 1
  · rw [if_pos (by omega), if_pos hlast]
    rw [if_pos (by rw [foldl_set_length, List.length_set, List.length_replicate]; omega)]
  · rw [if_neg (by omega), if_neg hlast]
    rw [foldl_set_getElem?]
    by_cases hint : 1 ≤ i ∧ i ≤ p.length - 2 ∧
        i < (List.set (List.replicate p.length ((0:ℝ), (0:ℝ))) 0
          (f (p.getD 0 ((0:ℝ), (0:ℝ))) (p.getD 1 ((0:ℝ), (0:ℝ))))).length
    · rw [if_pos hint, if_neg (by omega)]
      have harith : i - 1 + 2 = i + 1 := by omega
      rw [harith]
    · have hi0 : i = 0 := by
        rw [List.length_set, List.length_replicate] at hint
        omega
      rw [if_neg hint, hi0, if_pos rfl]
      rw [List.getElem?_set_self (by rw [List.length_replicate]; omega)]

theorem zip_getD (px py : List ℝ) (j : ℕ) (hj : j < px.length)
    (hlen : px.length = py.length) :
    (px.zip py).getD j ((0:ℝ), (0:ℝ)) = (px.getD j 0, py.getD j 0) := by
  have hx : px[j]? = some (px.getD j 0) := by
    rw [List.getElem?_eq_getElem hj]
    rw [List.getD_eq_getElem?_getD, List.getElem?_eq_getElem hj]
    rfl
  have hy : py[j]? = some (py.getD j 0) := by
    rw [List.getElem?_eq_getElem (by omega)]
    rw [List.getD_eq_getElem?_getD, List.getElem?_eq_getElem (by omega)]
    rfl
  have hzip : (px.zip py)[j]? = some (px.getD j 0, py.getD j 0) := by
    rw [List.getElem?_zip_eq_some]
    exact ⟨hx, hy⟩
  rw [List.getD_eq_getElem?_getD, hzip]
  rfl

theorem buildVecs_eq_centered (f : Point → Point → Point) (px py : List ℝ)
    (hlen : px.length = py.length) (h2 : 2 ≤ px.length) :
    buildVecs f (px.zip py) = centeredPairVecs f px py := by
  have hzlen : (px.zip py).length = px.length := by
    rw [List.length_zip]
    omega
  apply List.ext_getElem?
  intro i
  by_cases hi : i < px.length
  · rw [buildVecs_getElem? f _ (by omega) i (by omega)]
    have hlen2 : i < (centeredPairVecs f px py).length := by
      unfold centeredPairVecs
      rw [List.length_ofFn]
      omega
    rw [List.getElem?_eq_getElem hlen2]
    unfold centeredPairVecs
    rw [List.getElem_ofFn]
    congr 1
    simp only [Fin.val_mk, hzlen]
    by_cases h0 : i = 0
    · rw [if_neg (by omega), if_pos h0, if_pos h0]
      rw [zip_getD px py 0 (by omega) hlen, zip_getD px py 1 (by omega) hlen]
    · by_cases hlast : i = px.length - 1
      · rw [if_pos hlast, if_neg h0, if_pos hlast]
        rw [zip_getD px py _ (by omega) hlen, zip_getD px py _ (by omega) hlen]
      · rw [if_neg hlast, if_neg h0, if_neg h0, if_neg hlast]
        rw [zip_getD px py _ (by omega) hlen, zip_getD px py _ (by omega) hlen]
  · rw [List.getElem?_eq_none, List.getElem?_eq_none]
    · unfold centeredPairVecs
      rw [List.length_ofFn]
      omega
    · rw [buildVecs_length]
      omega

/-- C7: for N at least 2 equal-length coordinate lists, compute_normals and
compute_tangentials produce N vectors with the vector at point 0 derived from
the pair (0,1), at interior point i from the pair (i-1, i+1), and at point
N-1 from the pair (N-2, N-1); for N below 2 both return a single zero
placeholder per axis and never raise. -/
theorem compute_vectors_centered (px py : List ℝ) (hlen : px.length = py.length) :
    (2 ≤ px.length →
      compute_normals px py =
        ((centeredPairVecs normal px py).map Prod.fst,
          (centeredPairVecs normal px py).map Prod.snd) ∧
      compute_tangentials px py =
        ((centeredPairVecs tangential px py).map Prod.fst,
          (centeredPairVecs tangential px py).map Prod.snd) ∧
      (compute_normals px py).1.length = px.length ∧
      (compute_normals px py).2.length = px.length ∧
      (compute_tangentials px py).1.length = px.length ∧
      (compute_tangentials px py).2.length = px.length) ∧
    (px.length < 2 →
      compute_normals px py = ([0], [0]) ∧ compute_tangentials px py = ([0], [0])) := by
  have hzlen : (px.zip py).length = px.length := by
    rw [List.length_zip]
    omega
  constructor
  · intro h2
    have hn : compute_normals px py =
        ((centeredPairVecs normal px py).map Prod.fst,
          (centeredPairVecs normal px py).map Prod.snd) := by
      unfold compute_normals
      rw [if_neg (by omega), buildVecs_eq_centered normal px py hlen h2]
    have ht : compute_tangentials px py =
        ((centeredPairVecs tangential px py).map Prod.fst,
          (centeredPairVecs tangential px py).map Prod.snd) := by
      unfold compute_tangentials
      rw [if_neg (by omega), buildVecs_eq_centered tangential px py hlen h2]
    have hclen : ∀ f : Point → Point → Point,
        (centeredPairVecs f px py).length = px.length := by
      intro f
      unfold centeredPairVecs
      rw [List.length_ofFn]
    refine ⟨hn, ht, ?_, ?_, ?_, ?_⟩
    · rw [hn]
      simp [hclen]
    · rw [hn]
      simp [hclen]
    · rw [ht]
      simp [hclen]
    · rw [ht]
      simp [hclen]
  · intro hlt
    constructor
    · unfold compute_normals
      rw [if_pos (by omega)]
    · unfold compute_tangentials
      rw [if_pos (by omega)]

/-- Concrete instances of C7: a 3-point profile exercising the N >= 2 layout
and a 1-point profile exercising the placeholder branch. -/
theorem compute_vectors_centered_witness :
    compute_normals [(0:ℝ), 1, 2] [(0:ℝ), 0, 0] =
      ((centeredPairVecs normal [(0:ℝ), 1, 2] [(0:ℝ), 0, 0]).map Prod.fst,
        (centeredPairVecs normal [(0:ℝ), 1, 2] [(0:ℝ), 0, 0]).map Prod.snd) ∧
    compute_tangentials [(5:ℝ)] [(7:ℝ)] = ([0], [0]) :=
  ⟨((compute_vectors_centered [(0:ℝ), 1, 2] [(0:ℝ), 0, 0] rfl).1 (by norm_num)).1,
    ((compute_vectors_centered [(5:ℝ)] [(7:ℝ)] rfl).2 (by norm_num)).2⟩

noncomputable section

/-- Embedding of the profile_axis computation of extract_profile in
profiles.py: np.sqrt((xs - xs[0])**2 + (ys - ys[0])**2), the straight-line
distance of every sample point from the first point. -/
def extract_profile_axis (xs ys : List ℝ) : List ℝ :=
  List.zipWith (fun x y => Real.sqrt ((x - xs.getD 0 0) ^ 2 + (y - ys.getD 0 0) ^ 2)) xs ys

/-- Running prefix sums of a list (np.cumsum). -/
def cumsum (l : List ℝ) : List ℝ := (List.scanl (fun a b => a + b) 0 l).tail

/-- Embedding of profiles.py distance_from_start(px, py): result[0] = 0,
result[i] = Euclidean distance between consecutive points, then cumulative
sum — the cumulative chord distance along the polyline. -/
def distance_from_start (px py : List ℝ) : List ℝ :=
  let p := px.zip py
  let d := (0:ℝ) ::
    List.zipWith (fun a b : Point => Real.sqrt ((b.1 - a.1) ^ 2 + (b.2 - a.2) ^ 2)) p p.tail
  cumsum d

end

theorem sqrt_hundred : Real.sqrt 100 = 10 := by
  rw [show (100:ℝ) = 10 ^ 2 by norm_num, Real.sqrt_sq (by norm_num)]

/-- C1: the axis produced by extract_profile for the right-angle polyline
(0,0), (10,0), (10,10) is [0, 10, sqrt 200], not the cumulative chord
distance [0, 10, 20] required by the claim; the repository's own
distance_from_start helper returns the claimed cumulative values. -/
theorem extract_profile_axis_right_angle :
    extract_profile_axis [(0:ℝ), 10, 10] [(0:ℝ), 0, 10] = [0, 10, Real.sqrt 200] ∧
    Real.sqrt 200 ≠ 20 ∧
    distance_from_start [(0:ℝ), 10, 10] [(0:ℝ), 0, 10] = [0, 10, 20] := by
  refine ⟨?_, ?_, ?_⟩
  · unfold extract_profile_axis
    simp only [List.zipWith, List.getD]
    norm_num
    exact sqrt_hundred
  · intro h
    have h2 := Real.sq_sqrt (show (0:ℝ) ≤ 200 by norm_num)
    rw [h] at h2
    norm_num at h2
  · unfold distance_from_start cumsum
    simp only [List.zip, List.zipWith, List.tail, List.scanl]
    rw [show ((10:ℝ) - 0) ^ 2 + ((0:ℝ) - 0) ^ 2 = 100 by norm_num]
    rw [show ((10:ℝ) - 10) ^ 2 + ((10:ℝ) - 0) ^ 2 = 100 by norm_num]
    rw [sqrt_hundred]
    norm_num

noncomputable section

/-- NaN-propagating subtraction on NaN-able values (none encodes NaN). -/
def osub : Option ℝ → Option ℝ → Option ℝ
  | some a, some b => some (a - b)
  | _, _ => none

/-- NaN-propagating squaring of a NaN-able value. -/
def osq (a : Option ℝ) : Option ℝ := a.map fun x => x ^ 2

/-- np.nanmean on a NaN-able series: the mean of the finite entries, NaN
when there is none. -/
def nanmean (xs : List (Option ℝ)) : Option ℝ :=
  let v := xs.filterMap id
  if v.length = 0 then none else some (v.sum / (v.length : ℝ))

/-- Pairs of positions at which both series hold finite values. -/
def validPairs (xs ys : List (Option ℝ)) : List (ℝ × ℝ) :=
  (xs.zip ys).filterMap fun q =>
    match q with
    | (some a, some b) => some (a, b)
    | _ => none

/-- Pearson correlation over pairwise-complete samples, as computed by the
external pandas Series.corr and xr.corr calls used in profiles.py: NaN when
fewer than two valid pairs remain or either variance is zero. -/
def pearsonValid (xs ys : List (Option ℝ)) : Option ℝ :=
  let ps := validPairs xs ys
  if ps.length < 2 then none
  else
    let n : ℝ := ps.length
    let mx := (ps.map Prod.fst).sum / n
    let my := (ps.map Prod.snd).sum / n
    let sxx := (ps.map fun q => (q.1 - mx) ^ 2).sum
    let syy := (ps.map fun q => (q.2 - my) ^ 2).sum
    let sxy := (ps.map fun q => (q.1 - mx) * (q.2 - my)).sum
    if sxx = 0 ∨ syy = 0 then none
    else some (sxy / Real.sqrt (sxx * syy))

/-- Embedding of the legacy calculate_stats(df, col1, col2) of
pypism/profiles.py: diff = df[col1] - df[col2]; when diff is entirely NaN or
its length is at most 2, both statistics are NaN, else pearson_r is
df[col2].corr(df[col1]) and rmsd is sqrt(nanmean(diff**2)). The returned
pair is (pearson_r, rmsd). -/
def calculate_stats (col1 col2 : List (Option ℝ)) : Option ℝ × Option ℝ :=
  let diff := List.zipWith osub col1 col2
  if diff.all Option.isNone = true ∨ diff.length ≤ 2 then (none, none)
  else (pearsonValid col2 col1, (nanmean (diff.map osq)).map Real.sqrt)

end

theorem nanmean_map_osq_isSome (xs : List (Option ℝ))
    (h : xs.all Option.isNone = false) : ∃ r, nanmean (xs.map osq) = some r := by
  induction xs with
  | nil => simp at h
  | cons x t ih =>
    cases x with
    | some a =>
      refine ⟨(((some a :: t).map osq).filterMap id).sum /
        ((((some a :: t).map osq).filterMap id).length : ℝ), ?_⟩
      unfold nanmean
      rw [if_neg]
      intro hlen
      simp [osq] at hlen
    | none =>
      have ht : t.all Option.isNone = false := by
        simpa using h
      obtain ⟨r, hr⟩ := ih ht
      refine ⟨r, ?_⟩
      unfold nanmean at hr ⊢
      simpa [osq] using hr

/-- C3 counterexample: for col1 = col2 = [1, NaN, NaN] the difference series
has exactly one finite value (not more than 2) and is not entirely NaN, yet
the legacy calculate_stats computes rmsd = 0 instead of returning NaN for
both statistics as the claim requires. -/
theorem calculate_stats_finite_guard_counterexample :
    ((List.zipWith osub [some (1:ℝ), none, none] [some (1:ℝ), none, none]).filterMap
      id).length = 1 ∧
    (List.zipWith osub [some (1:ℝ), none, none]
      [some (1:ℝ), none, none]).all Option.isNone = false ∧
    calculate_stats [some (1:ℝ), none, none] [some (1:ℝ), none, none] = (none, some 0) ∧
    (some (0:ℝ) ≠ (none : Option ℝ)) := by
  refine ⟨by simp [osub], by simp [osub], ?_, by simp⟩
  unfold calculate_stats
  rw [if_neg (by simp [osub])]
  rw [Prod.mk.injEq]
  constructor
  · unfold pearsonValid
    rw [if_pos (by simp [validPairs])]
  · show (nanmean ((List.zipWith osub [some (1:ℝ), none, none]
        [some (1:ℝ), none, none]).map osq)).map Real.sqrt = some 0
    have hdiff : (List.zipWith osub [some (1:ℝ), none, none]
        [some (1:ℝ), none, none]).map osq = [some ((1 - 1 : ℝ) ^ 2), none, none] := rfl
    rw [hdiff]
    unfold nanmean
    rw [if_neg (by simp)]
    have hv : (List.filterMap id [some ((1 - 1 : ℝ) ^ 2), none, none]) = [(1 - 1 : ℝ) ^ 2] := by
      simp
    rw [hv]
    simp only [List.sum_cons, List.sum_nil, List.length_cons, List.length_nil, Option.map_some]
    norm_num

/-- C3 amended: the legacy calculate_stats computes the statistics exactly
when the difference series has raw length greater than 2 (counting NaN
entries) and is not entirely NaN; otherwise both returned statistics are
NaN, and when the guard passes the returned rmsd is never NaN. -/
theorem calculate_stats_length_guard (col1 col2 : List (Option ℝ)) :
    ((List.zipWith osub col1 col2).length ≤ 2 ∨
        (List.zipWith osub col1 col2).all Option.isNone = true →
      calculate_stats col1 col2 = (none, none)) ∧
    (2 < (List.zipWith osub col1 col2).length →
      (List.zipWith osub col1 col2).all Option.isNone = false →
      calculate_stats col1 col2 =
        (pearsonValid col2 col1,
          (nanmean ((List.zipWith osub col1 col2).map osq)).map Real.sqrt) ∧
      (calculate_stats col1 col2).2 ≠ none) := by
  constructor
  · intro h
    unfold calculate_stats
    rw [if_pos]
    rcases h with h | h
    · exact Or.inr h
    · exact Or.inl h
  · intro hlen hall
    have heq : calculate_stats col1 col2 =
        (pearsonValid col2 col1,
          (nanmean ((List.zipWith osub col1 col2).map osq)).map Real.sqrt) := by
      unfold calculate_stats
      rw [if_neg]
      rintro (h | h)
      · rw [hall] at h
        exact Bool.false_ne_true h
      · omega
    refine ⟨heq, ?_⟩
    rw [heq]
    obtain ⟨r, hr⟩ := nanmean_map_osq_isSome _ hall
    rw [hr]
    simp

/-- Concrete instances of C3 as amended: a 1-point difference series falls
under the guard, a 3-point all-finite one is computed with finite rmsd. -/
theorem calculate_stats_length_guard_witness :
    calculate_stats [some (1:ℝ)] [some (2:ℝ)] = (none, none) ∧
    (calculate_stats [some (1:ℝ), some 2, some 3] [some (0:ℝ), some 0, some 0]).2 ≠ none := by
  constructor
  · exact (calculate_stats_length_guard [some (1:ℝ)] [some (2:ℝ)]).1
      (Or.inl (by simp [osub]))
  · exact ((calculate_stats_length_guard [some (1:ℝ), some 2, some 3]
      [some (0:ℝ), some 0, some 0]).2 (by simp [osub]) (by simp [osub])).2

/-- Python error outcomes surfaced by the accessor methods. -/
inductive PyErr : Type
  | assertionError : PyErr
  | keyError : PyErr
deriving DecidableEq

/-- An xarray Dataset restricted to what the accessor methods touch: an
ordered association list from variable names to NaN-able series. -/
abbrev Dataset : Type := List (String × List (Option ℝ))

/-- The data_vars view of a dataset: its variable names. -/
def dataVars (ds : Dataset) : List String := ds.map Prod.fst

/-- Variable lookup, ds[name], returning none for a missing name
(a Python KeyError at the call site). -/
def getVar (ds : Dataset) (k : String) : Option (List (Option ℝ)) := List.lookup k ds

/-- Item assignment ds[name] = v: overwrite an existing variable in place or
append a new one. -/
def setVar (ds : Dataset) (k : String) (v : List (Option ℝ)) : Dataset :=
  if k ∈ dataVars ds then ds.map (fun q => if q.1 = k then (k, v) else q)
  else ds ++ [(k, v)]

/-- Python truthiness of the expression a and b on strings: a when a is the
empty (falsy) string, else b. -/
def pyAnd (a b : String) : String := if a = "" then a else b

/-- NaN-propagating elementwise body of add_normal_component:
func(x, x_n, y, y_n) = x * x_n + y * y_n. -/
def dot4 : Option ℝ → Option ℝ → Option ℝ → Option ℝ → Option ℝ
  | some x, some xn, some y, some yn => some (x * xn + y * yn)
  | _, _, _, _ => none

/-- Four-way zip used to model the aligned elementwise xr.apply_ufunc. -/
def zipWith4 (f : Option ℝ → Option ℝ → Option ℝ → Option ℝ → Option ℝ) :
    List (Option ℝ) → List (Option ℝ) → List (Option ℝ) → List (Option ℝ) →
      List (Option ℝ)
  | a :: as, b :: bs, c :: cs, d :: ds => f a b c d :: zipWith4 f as bs cs ds
  | _, _, _, _ => []

/-- Embedding of ProfilesMethods.add_normal_component(x_component, y_component,
normal_name): asserts (x_component and y_component) in self.data_vars (the
Python and yields only the y name for truthy x), then looks up x, nx, y, ny
(KeyError if any is missing) and assigns the elementwise x*nx + y*ny as the
new normal variable. -/
def add_normal_component (ds : Dataset) (x_component y_component normal_name : String) :
    Except PyErr Dataset :=
  if pyAnd x_component y_component ∈ dataVars ds then
    match getVar ds x_component, getVar ds "nx", getVar ds y_component, getVar ds "ny" with
    | some x, some nxv, some y, some nyv =>
        Except.ok (setVar ds normal_name (zipWith4 dot4 x nxv y nyv))
    | _, _, _, _ => Except.error PyErr.keyError
  else Except.error PyErr.assertionError

theorem getVar_eq_none_of_not_mem (ds : Dataset) (k : String) (h : k ∉ dataVars ds) :
    getVar ds k = none := by
  induction ds with
  | nil => rfl
  | cons q t ih =>
    unfold getVar List.lookup
    have hk : ¬(k = q.1) := by
      intro he
      exact h (by simp [dataVars, he])
    have hbeq : (k == q.1) = false := beq_eq_false_iff_ne.mpr hk
    rw [hbeq]
    exact ih (by
      intro hm
      exact h (by simp [dataVars] at hm ⊢; exact Or.inr hm))

theorem mem_of_getVar_some (ds : Dataset) (k : String) (v : List (Option ℝ))
    (h : getVar ds k = some v) : k ∈ dataVars ds := by
  by_contra hmem
  rw [getVar_eq_none_of_not_mem ds k hmem] at h
  exact Option.noConfusion h

/-- C2 counterexample: with only vy, nx, ny present (vx absent), the claim
demands an assertion error, but the assert (x and y) in data_vars only checks
the y component, so the call passes the assertion and fails with a KeyError
at the variable lookup instead. -/
theorem add_normal_component_missing_x_keyerror :
    ("vx" : String) ∉ dataVars
      [(("vy" : String), [some (1:ℝ)]), ("nx", [some 1]), ("ny", [some 1])] ∧
    add_normal_component
      [(("vy" : String), [some (1:ℝ)]), ("nx", [some 1]), ("ny", [some 1])]
      "vx" "vy" "v_normal" = Except.error PyErr.keyError ∧
    (Except.error PyErr.keyError : Except PyErr Dataset) ≠
      Except.error PyErr.assertionError := by
  refine ⟨by decide, rfl, by simp⟩

/-- C2 amended: add_normal_component adds the elementwise dot product
x*nx + y*ny as the new normal variable when all required variables exist;
absence of the y component triggers the assertion error, while absence of
only the x component passes the assertion and fails with a KeyError at
lookup; in every case where a component is missing, the call fails loudly
and never returns a dataset. -/
theorem add_normal_component_loud (ds : Dataset) (xc yc nn : String) (hx : xc ≠ "") :
    (yc ∉ dataVars ds →
      add_normal_component ds xc yc nn = Except.error PyErr.assertionError) ∧
    (yc ∈ dataVars ds → xc ∉ dataVars ds →
      add_normal_component ds xc yc nn = Except.error PyErr.keyError) ∧
    (∀ x nxv y nyv,
      getVar ds xc = some x → getVar ds "nx" = some nxv →
      getVar ds yc = some y → getVar ds "ny" = some nyv →
      add_normal_component ds xc yc nn =
        Except.ok (setVar ds nn (zipWith4 dot4 x nxv y nyv))) ∧
    ((xc ∉ dataVars ds ∨ yc ∉ dataVars ds) →
      ∀ ds2, add_normal_component ds xc yc nn ≠ Except.ok ds2) := by
  have hpa : pyAnd xc yc = yc := by
    unfold pyAnd
    rw [if_neg hx]
  have hassert : yc ∉ dataVars ds →
      add_normal_component ds xc yc nn = Except.error PyErr.assertionError := by
    intro h
    unfold add_normal_component
    rw [hpa, if_neg h]
  have hkey : yc ∈ dataVars ds → xc ∉ dataVars ds →
      add_normal_component ds xc yc nn = Except.error PyErr.keyError := by
    intro hmem hxabs
    unfold add_normal_component
    rw [hpa, if_pos hmem, getVar_eq_none_of_not_mem ds xc hxabs]
  have hok : ∀ x nxv y nyv,
      getVar ds xc = some x → getVar ds "nx" = some nxv →
      getVar ds yc = some y → getVar ds "ny" = some nyv →
      add_normal_component ds xc yc nn =
        Except.ok (setVar ds nn (zipWith4 dot4 x nxv y nyv)) := by
    intro x nxv y nyv h1 h2 h3 h4
    unfold add_normal_component
    rw [hpa, if_pos (mem_of_getVar_some ds yc y h3), h1, h2, h3, h4]
  refine ⟨hassert, hkey, hok, ?_⟩
  rintro (h | h) ds2 hcontra
  · by_cases hyc : yc ∈ dataVars ds
    · rw [hkey hyc h] at hcontra
      exact Except.noConfusion hcontra
    · rw [hassert hyc] at hcontra
      exact Except.noConfusion hcontra
  · rw [hassert h] at hcontra
    exact Except.noConfusion hcontra

/-- Concrete instances of C2 as amended: the full dot-product path, the
missing-y assertion error, and the missing-x KeyError. -/
theorem add_normal_component_loud_witness :
    add_normal_component
      [(("vx" : String), [some (2:ℝ)]), ("vy", [some 3]), ("nx", [some 5]), ("ny", [some 7])]
      "vx" "vy" "v_normal" =
      Except.ok (setVar
        [(("vx" : String), [some (2:ℝ)]), ("vy", [some 3]), ("nx", [some 5]), ("ny", [some 7])]
        "v_normal" (zipWith4 dot4 [some (2:ℝ)] [some 5] [some 3] [some 7])) ∧
    add_normal_component [(("nx" : String), [some (1:ℝ)])] "vx" "vy" "v_normal" =
      Except.error PyErr.assertionError ∧
    add_normal_component
      [(("vy" : String), [some (1:ℝ)]), ("nx", [some 1]), ("ny", [some 1])]
      "ux" "vy" "v_normal" = Except.error PyErr.keyError := by
  refine ⟨?_, ?_, ?_⟩
  · exact (add_normal_component_loud _ "vx" "vy" "v_normal" (by decide)).2.2.1
      [some (2:ℝ)] [some 5] [some 3] [some 7] rfl rfl rfl rfl
  · exact (add_normal_component_loud _ "vx" "vy" "v_normal" (by decide)).1 (by decide)
  · exact (add_normal_component_loud _ "ux" "vy" "v_normal" (by decide)).2.1
      (by decide) (by decide)

noncomputable section

/-- A labeled 2-D array: an outer and an inner dimension name and a row
list (rows indexed by dim0, entries within a row by dim1). -/
structure DataArray2 : Type where
  dim0 : String
  dim1 : String
  data : List (List (Option ℝ))

/-- Transpose of a rectangular row list (column j collects entry j of every
row). -/
def transposeD (rows : List (List (Option ℝ))) : List (List (Option ℝ)) :=
  (List.range (rows.headD []).length).map fun j => rows.map fun r => r.getD j none

/-- The rmsd(sim, obs) body of ProfilesMethods.calculate_stats on one
core-dimension slice: np.sqrt(np.nanmean((sim - obs)**2, axis=-1)). -/
def rmsd1 (sim obs : List (Option ℝ)) : Option ℝ :=
  (nanmean ((List.zipWith osub sim obs).map osq)).map Real.sqrt

/-- xr.apply_ufunc with input_core_dims [[d], [d]] on two aligned 2-D
arrays: move the named dimension to the last axis and apply the reducing
function along it, broadcasting independently over the remaining dimension;
an error when the name matches neither dimension of either input. -/
def reduceAlong (f : List (Option ℝ) → List (Option ℝ) → Option ℝ)
    (d : String) (a b : DataArray2) : Except String (List (Option ℝ)) :=
  if d = a.dim1 ∧ d = b.dim1 then Except.ok (List.zipWith f a.data b.data)
  else if d = a.dim0 ∧ d = b.dim0 then
    Except.ok (List.zipWith f (transposeD a.data) (transposeD b.data))
  else Except.error "ValueError"

/-- Embedding of ProfilesMethods.calculate_stats(obs_var, sim_var, dim,
stats) of glacier_flow_tools/profiles.py: per requested statistic, rmsd runs
through apply_ufunc along the caller-supplied dim, while pearson_r calls
xr.corr(sim, obs, dim="profile_axis") with the dimension name fixed in the
source; the two variables are passed positionally as (obs, sim); a statistic
name outside the func table is a KeyError. -/
def calculate_stats_xr (obs sim : DataArray2) (dim : String) (stats : List String) :
    List (String × Except String (List (Option ℝ))) :=
  stats.map fun stat =>
    if stat = "rmsd" then (stat, reduceAlong rmsd1 dim obs sim)
    else if stat = "pearson_r" then
      (stat, reduceAlong pearsonValid "profile_axis" obs sim)
    else (stat, Except.error "KeyError")

/-- Claim-side per-slice RMSD: the square root of the mean of squared
differences over the positions where both series are finite, NaN when no
such position exists, with no minimum-sample-size guard. -/
def rmsdSpec (sim obs : List (Option ℝ)) : Option ℝ :=
  if (validPairs sim obs).length = 0 then none
  else some (Real.sqrt (((validPairs sim obs).map fun q => (q.1 - q.2) ^ 2).sum /
    ((validPairs sim obs).length : ℝ)))

end

theorem filterMap_sq_diff (sim obs : List (Option ℝ)) :
    ((List.zipWith osub sim obs).map osq).filterMap id =
      (validPairs sim obs).map fun q => (q.1 - q.2) ^ 2 := by
  induction sim generalizing obs with
  | nil => rfl
  | cons a t ih =>
    cases obs with
    | nil => rfl
    | cons b u =>
      cases a with
      | none =>
        show ((List.zipWith osub (none :: t) (b :: u)).map osq).filterMap id = _
        unfold validPairs
        cases b with
        | none => simpa [List.zipWith, osub, osq, validPairs] using ih u
        | some y => simpa [List.zipWith, osub, osq, validPairs] using ih u
      | some x =>
        cases b with
        | none => simpa [List.zipWith, osub, osq, validPairs] using ih u
        | some y => simpa [List.zipWith, osub, osq, validPairs] using ih u

theorem rmsd1_eq_rmsdSpec (sim obs : List (Option ℝ)) :
    rmsd1 sim obs = rmsdSpec sim obs := by
  unfold rmsd1 rmsdSpec nanmean
  rw [filterMap_sq_diff]
  by_cases h : (validPairs sim obs).length = 0
  · rw [if_pos (by simpa using h), if_pos h]
    rfl
  · rw [if_neg (by simpa using h), if_neg h]
    simp [List.length_map]

theorem validPairs_swap (a b : List (Option ℝ)) :
    validPairs b a = (validPairs a b).map fun q => (q.2, q.1) := by
  induction a generalizing b with
  | nil =>
    cases b with
    | nil => rfl
    | cons y u => rfl
  | cons x t ih =>
    cases b with
    | nil => rfl
    | cons y u =>
      cases x with
      | none =>
        cases y with
        | none => simpa [validPairs, List.zip_cons_cons, List.filterMap_cons] using ih u
        | some v => simpa [validPairs, List.zip_cons_cons, List.filterMap_cons] using ih u
      | some w =>
        cases y with
        | none => simpa [validPairs, List.zip_cons_cons, List.filterMap_cons] using ih u
        | some v => simpa [validPairs, List.zip_cons_cons, List.filterMap_cons] using ih u

theorem rmsdSpec_comm (a b : List (Option ℝ)) : rmsdSpec a b = rmsdSpec b a := by
  unfold rmsdSpec
  rw [validPairs_swap a b, List.length_map]
  by_cases h : (validPairs a b).length = 0
  · rw [if_pos h, if_pos h]
  · rw [if_neg h, if_neg h]
    rw [List.map_map]
    have hmap : (validPairs a b).map ((fun q : ℝ × ℝ => (q.1 - q.2) ^ 2) ∘
        fun q : ℝ × ℝ => (q.2, q.1)) = (validPairs a b).map fun q => (q.1 - q.2) ^ 2 := by
      apply List.map_congr_left
      intro q _
      show (q.2 - q.1) ^ 2 = (q.1 - q.2) ^ 2
      ring
    rw [hmap]

theorem validPairs_nil_of_allNone (a b : List (Option ℝ))
    (h : a.all Option.isNone = true) : validPairs a b = [] := by
  induction a generalizing b with
  | nil => rfl
  | cons x t ih =>
    cases b with
    | nil => rfl
    | cons y u =>
      rw [List.all_cons, Bool.and_eq_true] at h
      have hx : x = none := Option.isNone_iff_eq_none.mp h.1
      have ht := h.2
      subst hx
      simpa [validPairs, List.zip_cons_cons, List.filterMap_cons] using ih u ht

/-- C4: the rmsd statistic of the labeled calculate_stats equals
sqrt(mean((sim - obs)^2)) with the NaN-ignoring mean taken along the
profile-axis dimension only, every remaining (experiment) slice reduced
independently; the formula is symmetric in its two arguments, there is no
minimum-sample-size guard (any nonempty set of finite pairs is reduced), and
an all-NaN slice yields NaN rather than raising. -/
theorem calculate_stats_xr_rmsd_spec (obs sim : DataArray2)
    (h1 : obs.dim1 = "profile_axis") (h2 : sim.dim1 = "profile_axis") :
    calculate_stats_xr obs sim "profile_axis" ["rmsd"] =
      [("rmsd", Except.ok (List.zipWith rmsdSpec obs.data sim.data))] ∧
    (∀ a b : List (Option ℝ), rmsdSpec a b = rmsdSpec b a) ∧
    (∀ a b : List (Option ℝ), a.all Option.isNone = true → rmsdSpec a b = none) ∧
    (∀ a b : List (Option ℝ), validPairs a b ≠ [] → rmsdSpec a b ≠ none) := by
  refine ⟨?_, rmsdSpec_comm, ?_, ?_⟩
  · unfold calculate_stats_xr
    simp only [List.map_cons, List.map_nil]
    rw [if_pos trivial]
    unfold reduceAlong
    rw [if_pos ⟨h1.symm, h2.symm⟩]
    have hfun : rmsd1 = rmsdSpec :=
      funext fun a => funext fun b => rmsd1_eq_rmsdSpec a b
    rw [hfun]
  · intro a b h
    unfold rmsdSpec
    rw [validPairs_nil_of_allNone a b h]
    rfl
  · intro a b h
    unfold rmsdSpec
    rw [if_neg (by simpa [List.length_eq_zero] using h)]
    simp

/-- Concrete instance of C4 on a 2-experiment, 2-point grid including an
all-NaN observation slice. -/
theorem calculate_stats_xr_rmsd_spec_witness :
    calculate_stats_xr
        (DataArray2.mk "exp_id" "profile_axis" [[some (1:ℝ), some 2], [none, none]])
        (DataArray2.mk "exp_id" "profile_axis" [[some (1:ℝ), some 1], [some 0, none]])
        "profile_axis" ["rmsd"] =
      [("rmsd", Except.ok (List.zipWith rmsdSpec
        [[some (1:ℝ), some 2], [none, none]] [[some (1:ℝ), some 1], [some 0, none]]))] ∧
    rmsdSpec [none, none] [some (0:ℝ), none] = none :=
  ⟨(calculate_stats_xr_rmsd_spec
      (DataArray2.mk "exp_id" "profile_axis" [[some (1:ℝ), some 2], [none, none]])
      (DataArray2.mk "exp_id" "profile_axis" [[some (1:ℝ), some 1], [some 0, none]])
      rfl rfl).1,
    (calculate_stats_xr_rmsd_spec
      (DataArray2.mk "exp_id" "profile_axis" [])
      (DataArray2.mk "exp_id" "profile_axis" []) rfl rfl).2.2.1
      [none, none] [some (0:ℝ), none] rfl⟩

/-- C10: the pearson_r statistic of the labeled calculate_stats is computed
along the fixed dimension name profile_axis whatever value is passed as dim;
the dim argument affects only the rmsd statistic, witnessed by a 2 x 1 array
on which two dims give different rmsd outputs. -/
theorem calculate_stats_xr_pearson_fixed_dim (obs sim : DataArray2) (d d2 : String) :
    calculate_stats_xr obs sim d ["pearson_r"] =
      calculate_stats_xr obs sim d2 ["pearson_r"] ∧
    calculate_stats_xr obs sim d ["pearson_r"] =
      [("pearson_r", reduceAlong pearsonValid "profile_axis" obs sim)] ∧
    calculate_stats_xr
        (DataArray2.mk "exp_id" "profile_axis" [[some (0:ℝ)], [some 2]])
        (DataArray2.mk "exp_id" "profile_axis" [[some (0:ℝ)], [some 0]])
        "exp_id" ["rmsd"] ≠
      calculate_stats_xr
        (DataArray2.mk "exp_id" "profile_axis" [[some (0:ℝ)], [some 2]])
        (DataArray2.mk "exp_id" "profile_axis" [[some (0:ℝ)], [some 0]])
        "profile_axis" ["rmsd"] := by
  have hpe : ∀ d3 : String, calculate_stats_xr obs sim d3 ["pearson_r"] =
      [("pearson_r", reduceAlong pearsonValid "profile_axis" obs sim)] := by
    intro d3
    unfold calculate_stats_xr
    simp only [List.map_cons, List.map_nil]
    rw [if_neg (show ¬("pearson_r" = "rmsd") by decide)]
    rfl
  refine ⟨(hpe d).trans (hpe d2).symm, hpe d, ?_⟩
  intro hcontra
  have e1 : calculate_stats_xr
      (DataArray2.mk "exp_id" "profile_axis" [[some (0:ℝ)], [some 2]])
      (DataArray2.mk "exp_id" "profile_axis" [[some (0:ℝ)], [some 0]])
      "exp_id" ["rmsd"] =
      [("rmsd", Except.ok [rmsd1 [some (0:ℝ), some 2] [some (0:ℝ), some 0]])] := rfl
  have e2 : calculate_stats_xr
      (DataArray2.mk "exp_id" "profile_axis" [[some (0:ℝ)], [some 2]])
      (DataArray2.mk "exp_id" "profile_axis" [[some (0:ℝ)], [some 0]])
      "profile_axis" ["rmsd"] =
      [("rmsd", Except.ok
        [rmsd1 [some (0:ℝ)] [some (0:ℝ)], rmsd1 [some 2] [some 0]])] := rfl
  rw [e1, e2] at hcontra
  simp at hcontra

noncomputable section

/-- xr.merge([d1, d2]) restricted to variable union: the variables of the
first dataset followed by those of the second not already present. -/
def mergeDs (d1 d2 : Dataset) : Dataset :=
  d1 ++ d2.filter fun q => !((dataVars d1).contains q.1)

/-- A heap of xarray Dataset objects; a Python variable holding a dataset is
an index into this store, and in-place mutation is a store update. -/
abbrev Store : Type := List Dataset

/-- Embedding of process_profile(profile, obs_ds, sim_ds, ...) of
glacier_flow_tools/profiles.py at the level of object reads and writes:
obs_profile = obs_ds.profiles.extract_profile(...) reads the observed input
and allocates a fresh object; the same for sim_ds; xr.merge allocates a
fresh merged object; merged_profile.profiles.calculate_stats(...) mutates
the merged object in place; the merged object is returned. The extraction
and statistics bodies are taken as parameters ef and sf because the frame
behavior depends only on which store cells each statement reads and writes:
both build their result purely from their argument (extract_profile
assembles new DataArrays via interp and writes only into the freshly merged
dataset, calculate_stats assigns only self, the merged object). -/
def process_profile (ef : Dataset → Dataset) (sf : Dataset → Dataset)
    (σ : Store) (obsId simId : ℕ) : Store × ℕ :=
  let obsProfile := ef (σ.getD obsId [])
  let simProfile := ef (σ.getD simId [])
  let merged := mergeDs obsProfile simProfile
  let σ1 := σ ++ [obsProfile, simProfile, merged]
  let mergedId := σ.length + 2
  let σ2 := σ1.set mergedId (sf (σ1.getD mergedId []))
  (σ2, mergedId)

end

/-- C8: process_profile never mutates its two input datasets: whatever the
extraction and statistics bodies do with their arguments, after the call the
store still holds the original observed and simulated datasets unchanged,
and the returned merged profile is a freshly allocated object distinct from
both inputs. -/
theorem process_profile_frame (ef sf : Dataset → Dataset) (σ : Store)
    (obsId simId : ℕ) (ho : obsId < σ.length) (hs : simId < σ.length) :
    ((process_profile ef sf σ obsId simId).1).getD obsId [] = σ.getD obsId [] ∧
    ((process_profile ef sf σ obsId simId).1).getD simId [] = σ.getD simId [] ∧
    σ.length ≤ (process_profile ef sf σ obsId simId).2 ∧
    (process_profile ef sf σ obsId simId).2 ≠ obsId ∧
    (process_profile ef sf σ obsId simId).2 ≠ simId := by
  have hread : ∀ j : ℕ, j < σ.length →
      ((process_profile ef sf σ obsId simId).1).getD j [] = σ.getD j [] := by
    intro j hj
    unfold process_profile
    rw [List.getD_eq_getElem?_getD, List.getD_eq_getElem?_getD]
    rw [List.getElem?_set_ne (by omega)]
    rw [List.getElem?_append_left hj]
    rw [List.getD_eq_getElem?_getD]
  refine ⟨hread obsId ho, hread simId hs, ?_, ?_, ?_⟩
  · show σ.length ≤ σ.length + 2
    omega
  · show σ.length + 2 ≠ obsId
    omega
  · show σ.length + 2 ≠ simId
    omega

/-- Concrete instance of C8 on a two-dataset store with the identity
extraction and statistics bodies. -/
theorem process_profile_frame_witness :
    ((process_profile id id [[(("v" : String), [some (1:ℝ)])], []] 0 1).1).getD 0 [] =
      [(("v" : String), [some (1:ℝ)])] ∧
    ((process_profile id id [[(("v" : String), [some (1:ℝ)])], []] 0 1).1).getD 1 [] =
      ([] : Dataset) ∧
    (process_profile id id [[(("v" : String), [some (1:ℝ)])], []] 0 1).2 ≠ 0 ∧
    (process_profile id id [[(("v" : String), [some (1:ℝ)])], []] 0 1).2 ≠ 1 := by
  have h := process_profile_frame id id [[(("v" : String), [some (1:ℝ)])], []] 0 1
    (by norm_num) (by norm_num)
  exact ⟨h.1.trans rfl, h.2.1.trans rfl, h.2.2.2.1, h.2.2.2.2⟩
